import Mathlib

/-!
Verification of the `SecurePasswordManager` core from `src/Passtest.py`.

The Python code is shallowly embedded as follows.

* Byte strings (`bytes`) are lists of naturals.
* The external cryptographic primitives (PBKDF2-HMAC-SHA256 from
  `derive_key`, AES-GCM from `encrypt_data` / `decrypt_data`) are modelled
  as ideal primitives: the KDF is an arbitrary deterministic collision-free
  function of (password, salt) producing a 32-entry key; AES-CTR encryption
  is XOR with a deterministic keystream byte per position; the GCM tag is a
  16-entry value determined collision-freely by (key, nonce, ciphertext).
  The envelope layout `nonce(16) ++ tag(16) ++ ciphertext`, the slicing
  offsets of `decrypt_data`, and the mode-constructor length checks of the
  `cryptography` library (nonce at least 8 bytes, tag at least 16 bytes)
  are taken from the source.
* Randomness (`os.urandom`, `secrets.choice`) is an explicit tape of
  naturals consumed left to right.
* The JSON store (`self.users`, persisted by `save_database`) is an
  association list from username to user record; `MgrState` keeps both the
  in-memory table (`users`) and the last persisted copy (`db`), and each
  `save_database()` call in the source becomes copying `users` into `db`.
  Base64 encoding/decoding of stored fields is the identity on our byte
  model (`b64decode (b64encode x) = x`), so stored fields hold the bytes
  themselves.
* Python exceptions raised by decryption (`InvalidTag`, or `ValueError`
  from the GCM mode constructor on malformed input) are all caught by the
  bare `except:` blocks of every caller, so decryption failure is modelled
  as a single outcome: `decrypt_data` returns `Option`.
-/

namespace Passtest

/-- Byte strings are lists of naturals. -/
abbrev Bytes := List Nat

/-! ### An injective encoding of byte strings into `Nat`

Used to build the ideal KDF and ideal MAC below: both must be
deterministic functions of their inputs that never collide on distinct
inputs (the idealisation of a cryptographic hash/MAC). -/

/-- A base strictly larger than every entry of `l`. -/
def encBase (l : Bytes) : Nat := l.foldr max 0 + 1

/-- Value of `l` read as little-endian digits in base `B`. -/
def polyVal (B : Nat) : Bytes → Nat
  | [] => 0
  | a :: rest => a + B * polyVal B rest

/-- Injective encoding of a byte string into a natural number. -/
def encodeBytes (l : Bytes) : Nat :=
  Nat.pair (encBase l) (Nat.pair l.length (polyVal (encBase l) l))

lemma mem_le_foldr_max (l : Bytes) : ∀ a ∈ l, a ≤ l.foldr max 0 := by
  induction l with
  | nil => intro a ha; cases ha
  | cons b t ih =>
    intro a ha
    rcases List.mem_cons.mp ha with h | h
    · subst h; exact le_max_left _ _
    · exact le_trans (ih a h) (le_max_right _ _)

lemma mem_lt_encBase (l : Bytes) : ∀ a ∈ l, a < encBase l := by
  intro a ha
  exact Nat.lt_succ_of_le (mem_le_foldr_max l a ha)

lemma polyVal_inj (B : Nat) :
    ∀ l1 l2 : Bytes, l1.length = l2.length → (∀ a ∈ l1, a < B) → (∀ a ∈ l2, a < B) →
      polyVal B l1 = polyVal B l2 → l1 = l2 := by
  intro l1
  induction l1 with
  | nil =>
    intro l2 hlen _ _ _
    cases l2 with
    | nil => rfl
    | cons b t => simp at hlen
  | cons a t ih =>
    intro l2 hlen h1 h2 hv
    cases l2 with
    | nil => simp at hlen
    | cons b t2 =>
      have ha : a < B := h1 a (List.mem_cons_self a t)
      have hb : b < B := h2 b (List.mem_cons_self b t2)
      have hB : 0 < B := lt_of_le_of_lt (Nat.zero_le a) ha
      have hv' : a + B * polyVal B t = b + B * polyVal B t2 := hv
      have hab : a = b := by
        have hmod := congrArg (· % B) hv'
        simpa [Nat.add_mul_mod_self_left, Nat.mod_eq_of_lt ha, Nat.mod_eq_of_lt hb]
          using hmod
      subst hab
      have ht : polyVal B t = polyVal B t2 :=
        Nat.eq_of_mul_eq_mul_left hB (by omega)
      have htail : t = t2 :=
        ih t2 (by simpa using hlen)
          (fun x hx => h1 x (List.mem_cons_of_mem a hx))
          (fun x hx => h2 x (List.mem_cons_of_mem a hx)) ht
      rw [htail]

lemma encodeBytes_inj {l1 l2 : Bytes} (h : encodeBytes l1 = encodeBytes l2) :
    l1 = l2 := by
  unfold encodeBytes at h
  rw [Nat.pair_eq_pair] at h
  obtain ⟨hB, h2⟩ := h
  rw [Nat.pair_eq_pair] at h2
  obtain ⟨hlen, hval⟩ := h2
  refine polyVal_inj (encBase l1) l1 l2 hlen (mem_lt_encBase l1) ?_ ?_
  · intro a ha; rw [hB]; exact mem_lt_encBase l2 a ha
  · rw [hval, hB]

/-! ### Randomness: an explicit tape -/

/-- The source of randomness (`os.urandom`, `secrets.choice`): an infinite
tape of naturals together with a position, consumed left to right. -/
structure Rng where
  tape : Nat → Nat
  pos : Nat

/-- `os.urandom(n)`: the next `n` tape cells, reduced to byte values. -/
def randBytes (n : Nat) (g : Rng) : Bytes × Rng :=
  ((List.range n).map (fun i => g.tape (g.pos + i) % 256), ⟨g.tape, g.pos + n⟩)

lemma randBytes_fst_length (n : Nat) (g : Rng) : (randBytes n g).1.length = n := by
  simp [randBytes]

/-- `generate_salt` from the source: 16 random bytes. -/
def generate_salt (g : Rng) : Bytes × Rng := randBytes 16 g

/-! ### Strings as byte strings -/

/-- `str.encode()`: the code points of the string. -/
def strBytes (s : String) : Bytes := s.data.map Char.toNat

/-- `bytes.decode()`: back from code points to a string. -/
def bytesStr (l : Bytes) : String := ⟨l.map Char.ofNat⟩

lemma bytesStr_strBytes (s : String) : bytesStr (strBytes s) = s := by
  cases s with
  | mk data =>
    have hfn : Char.ofNat ∘ Char.toNat = id := by
      funext c
      exact Char.ofNat_toNat c
    simp [bytesStr, strBytes, List.map_map, hfn]

lemma strBytes_inj {s t : String} (h : strBytes s = strBytes t) : s = t := by
  have := congrArg bytesStr h
  rwa [bytesStr_strBytes, bytesStr_strBytes] at this

/-! ### `derive_key`: the KDF (PBKDF2-HMAC-SHA256, external library)

Modelled as an ideal KDF: a deterministic, collision-free function of
(password, salt) producing a 32-entry key, mirroring
`derive_key(password, salt)` which always uses 100000 iterations and a
32-byte output. -/

/-- `derive_key` from the source (ideal model of PBKDF2). -/
def derive_key (password : String) (salt : Bytes) : Bytes :=
  Nat.pair (encodeBytes (strBytes password)) (encodeBytes salt) :: List.replicate 31 0

lemma derive_key_length (password : String) (salt : Bytes) :
    (derive_key password salt).length = 32 := by
  simp [derive_key]

lemma derive_key_inj {p p' : String} {s s' : Bytes}
    (h : derive_key p s = derive_key p' s') : p = p' ∧ s = s' := by
  have hhead : Nat.pair (encodeBytes (strBytes p)) (encodeBytes s) =
      Nat.pair (encodeBytes (strBytes p')) (encodeBytes s') := by
    simpa [derive_key] using h
  rw [Nat.pair_eq_pair] at hhead
  exact ⟨strBytes_inj (encodeBytes_inj hhead.1), encodeBytes_inj hhead.2⟩

/-! ### The AEAD cipher (AES-GCM, external library)

`encrypt_data` draws a fresh 16-byte nonce and returns
`nonce ++ tag ++ ciphertext`; `decrypt_data` splits its input at offsets
16 and 32 and verifies the tag. The cipher core is modelled ideally:
CTR encryption is per-position XOR with a deterministic keystream, and the
tag is a 16-entry value determined collision-freely by
(key, nonce, ciphertext). -/

/-- Modelled AES-CTR keystream byte at position `i` (ideal). -/
def keystream (key iv : Bytes) (i : Nat) : Nat :=
  Nat.pair (encodeBytes key) (Nat.pair (encodeBytes iv) i) % 256

/-- CTR-mode encryption/decryption: XOR each byte with the keystream. -/
def ctrXor (key iv : Bytes) : Nat → Bytes → Bytes
  | _, [] => []
  | i, b :: rest => (b ^^^ keystream key iv i) :: ctrXor key iv (i + 1) rest

lemma ctrXor_length (key iv : Bytes) : ∀ (i : Nat) (d : Bytes),
    (ctrXor key iv i d).length = d.length := by
  intro i d
  induction d generalizing i with
  | nil => rfl
  | cons b rest ih => simp [ctrXor, ih]

lemma ctrXor_ctrXor (key iv : Bytes) : ∀ (i : Nat) (d : Bytes),
    ctrXor key iv i (ctrXor key iv i d) = d := by
  intro i d
  induction d generalizing i with
  | nil => rfl
  | cons b rest ih =>
    simp only [ctrXor, ih]
    rw [Nat.xor_assoc, Nat.xor_self, Nat.xor_zero]

/-- Modelled GCM authentication tag (ideal MAC): 16 entries determined
collision-freely by key, nonce and ciphertext. -/
def gcmTag (key iv ct : Bytes) : Bytes :=
  Nat.pair (encodeBytes key) (Nat.pair (encodeBytes iv) (encodeBytes ct)) ::
    List.replicate 15 0

lemma gcmTag_length (key iv ct : Bytes) : (gcmTag key iv ct).length = 16 := by
  simp [gcmTag]

lemma gcmTag_inj {k k' iv iv' c c' : Bytes} (h : gcmTag k iv c = gcmTag k' iv' c') :
    k = k' ∧ iv = iv' ∧ c = c' := by
  have hhead : Nat.pair (encodeBytes k) (Nat.pair (encodeBytes iv) (encodeBytes c)) =
      Nat.pair (encodeBytes k') (Nat.pair (encodeBytes iv') (encodeBytes c')) := by
    simpa [gcmTag] using h
  rw [Nat.pair_eq_pair] at hhead
  obtain ⟨h1, h2⟩ := hhead
  rw [Nat.pair_eq_pair] at h2
  exact ⟨encodeBytes_inj h1, encodeBytes_inj h2.1, encodeBytes_inj h2.2⟩

/-- The envelope produced for plaintext `data` under `key` with nonce `iv`:
`iv ++ tag ++ ciphertext`, as assembled by `encrypt_data`. -/
def sealWith (data key iv : Bytes) : Bytes :=
  iv ++ gcmTag key iv (ctrXor key iv 0 data) ++ ctrXor key iv 0 data

/-- `encrypt_data` from the source: draw a fresh 16-byte IV, encrypt,
and return `iv + tag + ciphertext`. -/
def encrypt_data (data key : Bytes) (g : Rng) : Bytes × Rng :=
  let r := randBytes 16 g
  (sealWith data key r.1, r.2)

/-- `decrypt_data` from the source: split the envelope at offsets 16 and 32
(`[:16]`, `[16:32]`, `[32:]`), rebuild the GCM context and decrypt with tag
verification. The first guard reproduces the `cryptography` library's GCM
mode constructor checks (nonce at least 8 bytes, tag at least 16 bytes);
any failure is one observable outcome (`none`), since every caller wraps
the call in a bare `except:`. -/
def decrypt_data (encrypted_data key : Bytes) : Option Bytes :=
  let iv := encrypted_data.take 16
  let tag := (encrypted_data.drop 16).take 16
  let ciphertext := encrypted_data.drop 32
  if iv.length < 8 ∨ tag.length < 16 then none
  else if tag = gcmTag key iv ciphertext then some (ctrXor key iv 0 ciphertext)
  else none

lemma sealWith_length {iv : Bytes} (data key : Bytes) (hiv : iv.length = 16) :
    (sealWith data key iv).length = data.length + 32 := by
  simp [sealWith, hiv, gcmTag_length, ctrXor_length]
  omega

lemma sealWith_take {iv : Bytes} (data key : Bytes) (hiv : iv.length = 16) :
    (sealWith data key iv).take 16 = iv := by
  rw [sealWith, List.append_assoc, List.take_left' hiv]

lemma sealWith_tag {iv : Bytes} (data key : Bytes) (hiv : iv.length = 16) :
    ((sealWith data key iv).drop 16).take 16 =
      gcmTag key iv (ctrXor key iv 0 data) := by
  rw [sealWith, List.append_assoc, List.drop_left' hiv,
    List.take_left' (gcmTag_length key iv _)]

lemma sealWith_drop {iv : Bytes} (data key : Bytes) (hiv : iv.length = 16) :
    (sealWith data key iv).drop 32 = ctrXor key iv 0 data := by
  rw [sealWith]
  exact List.drop_left' (by rw [List.length_append, hiv, gcmTag_length])

/-- Opening an envelope with the key that sealed it recovers the plaintext. -/
lemma decrypt_sealWith_same {iv : Bytes} (data key : Bytes) (hiv : iv.length = 16) :
    decrypt_data (sealWith data key iv) key = some data := by
  rw [decrypt_data]
  simp only [sealWith_take data key hiv, sealWith_tag data key hiv,
    sealWith_drop data key hiv]
  rw [if_neg (by rw [hiv, gcmTag_length]; omega)]
  simp [ctrXor_ctrXor]

/-- If opening an envelope sealed under `key` succeeds with `key'`, then
`key' = key` and the output is the original plaintext (ideal MAC). -/
lemma decrypt_sealWith {iv : Bytes} {key' q : Bytes} (data key : Bytes)
    (hiv : iv.length = 16)
    (h : decrypt_data (sealWith data key iv) key' = some q) :
    key' = key ∧ q = data := by
  rw [decrypt_data] at h
  simp only [sealWith_take data key hiv, sealWith_tag data key hiv,
    sealWith_drop data key hiv] at h
  rw [if_neg (by rw [hiv, gcmTag_length]; omega)] at h
  by_cases htag : gcmTag key iv (ctrXor key iv 0 data) =
      gcmTag key' iv (ctrXor key iv 0 data)
  · obtain ⟨hk, _, _⟩ := gcmTag_inj htag
    subst hk
    rw [if_pos htag, ctrXor_ctrXor] at h
    exact ⟨rfl, (Option.some_inj.mp h).symm⟩
  · rw [if_neg htag] at h
    cases h

/-- Opening with any other key fails. -/
lemma decrypt_sealWith_ne {iv key' : Bytes} (data key : Bytes)
    (hiv : iv.length = 16) (hk : key' ≠ key) :
    decrypt_data (sealWith data key iv) key' = none := by
  cases hq : decrypt_data (sealWith data key iv) key' with
  | none => rfl
  | some q => exact absurd (decrypt_sealWith data key hiv hq).1 hk

/-! ### The account store and manager state -/

/-- One element of `recovery_data`: `{'salt': ..., 'encrypted_key': ...}`
(base64 fields modelled as the decoded bytes). -/
structure RecoveryEntry where
  salt : Bytes
  encrypted_key : Bytes
deriving DecidableEq

/-- One value of `self.users`: `{'salt', 'encrypted_master_key',
'passwords', 'recovery_data'}` (base64 fields modelled as the decoded
bytes; the `passwords` dict as an association list in insertion order). -/
structure UserData where
  salt : Bytes
  encrypted_master_key : Bytes
  passwords : List (String × Bytes)
  recovery_data : List RecoveryEntry
deriving DecidableEq

/-- The `self.users` dict: username to record, in insertion order. -/
abbrev Store := List (String × UserData)

/-- Manager state: the in-memory table and the last persisted copy
(`save_database` dumps `users` into `db`). -/
structure MgrState where
  users : Store
  db : Store
deriving DecidableEq

/-- Dict lookup on an association list. -/
def lookupStr {α : Type} : List (String × α) → String → Option α
  | [], _ => none
  | (k, v) :: rest, s => if k = s then some v else lookupStr rest s

/-- Dict assignment `d[s] = v`: overwrite in place, or append if absent. -/
def setEntry {α : Type} : List (String × α) → String → α → List (String × α)
  | [], s, v => [(s, v)]
  | (k, w) :: rest, s, v =>
    if k = s then (s, v) :: rest else (k, w) :: setEntry rest s v

lemma lookupStr_setEntry_self {α : Type} (l : List (String × α)) (s : String) (v : α) :
    lookupStr (setEntry l s v) s = some v := by
  induction l with
  | nil => simp [setEntry, lookupStr]
  | cons kv rest ih =>
    obtain ⟨k, w⟩ := kv
    by_cases hk : k = s
    · simp [setEntry, hk, lookupStr]
    · simp [setEntry, hk, lookupStr, ih]

/-! ### The manager operations -/

/-- One recovery code: `''.join(secrets.choice("0123456789") for _ in range(8))`. -/
def genCode (g : Rng) : String × Rng :=
  (⟨(List.range 8).map (fun i => Nat.digitChar (g.tape (g.pos + i) % 10))⟩,
   ⟨g.tape, g.pos + 8⟩)

/-- The recovery-code loop of `create_account`: for each of `n` rounds,
draw a code, draw a salt, derive a key from the code, and seal the master
key under it. Returns the codes and the `recovery_data` entries in
generation order. -/
def genRecovery (master_key : Bytes) : Nat → Rng → List String × List RecoveryEntry × Rng
  | 0, g => ([], [], g)
  | n + 1, g =>
    let c := genCode g
    let rs := generate_salt c.2
    let recovery_key := derive_key c.1 rs.1
    let ek := encrypt_data master_key recovery_key rs.2
    let rest := genRecovery master_key n ek.2
    (c.1 :: rest.1, ⟨rs.1, ek.1⟩ :: rest.2.1, rest.2.2)

/-- Result of `create_account`: `(ok, message, recovery_codes)` plus the
final state and randomness. -/
structure CreateOut where
  ok : Bool
  msg : String
  codes : List String
  st : MgrState
  g : Rng

/-- `create_account` from the source. -/
def create_account (username master_password : String) (st : MgrState) (g : Rng) :
    CreateOut :=
  match lookupStr st.users username with
  | some _ => ⟨false, "Username already exists", [], st, g⟩
  | none =>
    let s := generate_salt g
    let encryption_key := derive_key master_password s.1
    let mk := randBytes 32 s.2
    let emk := encrypt_data mk.1 encryption_key mk.2
    let rec10 := genRecovery mk.1 10 emk.2
    let users1 := setEntry st.users username
      ⟨s.1, emk.1, [], rec10.2.1⟩
    ⟨true, "Account created successfully", rec10.1, ⟨users1, users1⟩, rec10.2.2⟩

/-- Result of `login`: `(ok, message, master_key)` plus the (unchanged)
state, to make the frame property statable. -/
structure LoginOut where
  ok : Bool
  msg : String
  key : Option Bytes
  st : MgrState

/-- `login` from the source. -/
def login (username master_password : String) (st : MgrState) : LoginOut :=
  match lookupStr st.users username with
  | none => ⟨false, "User not found", none, st⟩
  | some user_data =>
    let encryption_key := derive_key master_password user_data.salt
    match decrypt_data user_data.encrypted_master_key encryption_key with
    | some master_key => ⟨true, "Login successful", some master_key, st⟩
    | none => ⟨false, "Invalid password", none, st⟩

/-- Result of `add_password`: `(ok, message)` plus state and randomness. -/
structure AddOut where
  ok : Bool
  msg : String
  st : MgrState
  g : Rng

/-- `add_password` from the source. -/
def add_password (username master_password service password : String)
    (st : MgrState) (g : Rng) : AddOut :=
  match lookupStr st.users username with
  | none => ⟨false, "User not found", st, g⟩
  | some user_data =>
    let lo := login username master_password st
    match lo.key with
    | none => ⟨false, lo.msg, st, g⟩
    | some master_key =>
      let ep := encrypt_data (strBytes password) master_key g
      let ud : UserData :=
        { user_data with passwords := setEntry user_data.passwords service ep.1 }
      let users1 := setEntry st.users username ud
      ⟨true, "Password for " ++ service ++ " added successfully",
        ⟨users1, users1⟩, ep.2⟩

/-- Result of `get_password`: `(ok, message, password)`. -/
structure GetOut where
  ok : Bool
  msg : String
  pw : Option String
deriving DecidableEq

/-- `get_password` from the source. -/
def get_password (username master_password service : String) (st : MgrState) :
    GetOut :=
  match lookupStr st.users username with
  | none => ⟨false, "User not found", none⟩
  | some user_data =>
    let lo := login username master_password st
    match lo.key with
    | none => ⟨false, lo.msg, none⟩
    | some master_key =>
      match lookupStr user_data.passwords service with
      | none => ⟨false, "No password stored for " ++ service, none⟩
      | some ep =>
        match decrypt_data ep master_key with
        | some d => ⟨true, "Password for " ++ service, some (bytesStr d)⟩
        | none => ⟨false, "Failed to decrypt password", none⟩

/-- The trial-decryption scan of `recover_account`: first entry whose
envelope opens under the key derived from the given code wins. -/
def findRecovery (recovery_code : String) :
    List RecoveryEntry → Option (RecoveryEntry × Bytes)
  | [] => none
  | e :: rest =>
    match decrypt_data e.encrypted_key (derive_key recovery_code e.salt) with
    | some master_key => some (e, master_key)
    | none => findRecovery recovery_code rest

/-- Python `list.remove(x)`: delete the first element equal to `x`. -/
def removeFirst : List RecoveryEntry → RecoveryEntry → List RecoveryEntry
  | [], _ => []
  | e :: rest, x => if e = x then rest else e :: removeFirst rest x

/-- Result of `recover_account`: `(ok, message, master_key)` plus state
and randomness. -/
structure RecoverOut where
  ok : Bool
  msg : String
  key : Option Bytes
  st : MgrState
  g : Rng

/-- `recover_account` from the source. -/
def recover_account (username recovery_code new_master_password : String)
    (st : MgrState) (g : Rng) : RecoverOut :=
  match lookupStr st.users username with
  | none => ⟨false, "User not found", none, st, g⟩
  | some user_data =>
    match findRecovery recovery_code user_data.recovery_data with
    | none => ⟨false, "Invalid recovery code", none, st, g⟩
    | some em =>
      let ns := generate_salt g
      let new_encryption_key := derive_key new_master_password ns.1
      let nemk := encrypt_data em.2 new_encryption_key ns.2
      let ud : UserData :=
        { user_data with
          salt := ns.1
          encrypted_master_key := nemk.1
          recovery_data := removeFirst user_data.recovery_data em.1 }
      let users1 := setEntry st.users username ud
      ⟨true, "Account recovered successfully", some em.2, ⟨users1, users1⟩, nemk.2⟩

/-! ### Properties of the recovery machinery -/

/-- `e` is an escrow of `master_key` under recovery code `code`: its
envelope was produced by sealing `master_key` under the key derived from
`code` and the entry's own salt, with a fresh 16-byte nonce. -/
def entryFor (master_key : Bytes) (code : String) (e : RecoveryEntry) : Prop :=
  ∃ iv, iv.length = 16 ∧
    e.encrypted_key = sealWith master_key (derive_key code e.salt) iv

lemma entryFor_decrypt {master_key : Bytes} {code : String} {e : RecoveryEntry}
    {k q : Bytes} (hef : entryFor master_key code e)
    (h : decrypt_data e.encrypted_key k = some q) :
    k = derive_key code e.salt ∧ q = master_key := by
  obtain ⟨iv, hiv, hek⟩ := hef
  rw [hek] at h
  exact decrypt_sealWith master_key (derive_key code e.salt) hiv h

lemma entryFor_decrypt_self {master_key : Bytes} {code : String} {e : RecoveryEntry}
    (hef : entryFor master_key code e) :
    decrypt_data e.encrypted_key (derive_key code e.salt) = some master_key := by
  obtain ⟨iv, hiv, hek⟩ := hef
  rw [hek]
  exact decrypt_sealWith_same master_key (derive_key code e.salt) hiv

/-- Whether trial decryption of entry `e` with code `c` succeeds. -/
def matchesB (c : String) (e : RecoveryEntry) : Bool :=
  (decrypt_data e.encrypted_key (derive_key c e.salt)).isSome

lemma matchesB_iff {master_key : Bytes} {code c : String} {e : RecoveryEntry}
    (hef : entryFor master_key code e) : matchesB c e = true ↔ c = code := by
  constructor
  · intro h
    rw [matchesB, Option.isSome_iff_exists] at h
    obtain ⟨q, hq⟩ := h
    exact (derive_key_inj (entryFor_decrypt hef hq).1).1
  · intro h
    subst h
    rw [matchesB, entryFor_decrypt_self hef]
    rfl

lemma forall₂_escrow {master_key : Bytes} {cs : List String}
    {es : List RecoveryEntry} (h : List.Forall₂ (entryFor master_key) cs es) :
    ∀ e ∈ es, ∃ c, entryFor master_key c e := by
  induction h with
  | nil => intro e he; cases he
  | cons h1 _ ih =>
    intro e he
    rcases List.mem_cons.mp he with he | he
    · subst he; exact ⟨_, h1⟩
    · exact ih e he

lemma forall₂_mem_code {master_key : Bytes} {cs : List String}
    {es : List RecoveryEntry} {c : String}
    (h : List.Forall₂ (entryFor master_key) cs es) (hc : c ∈ cs) :
    ∃ e ∈ es, entryFor master_key c e := by
  induction h with
  | nil => cases hc
  | cons h1 _ ih =>
    rcases List.mem_cons.mp hc with hc | hc
    · subst hc
      exact ⟨_, List.mem_cons_self _ _, h1⟩
    · obtain ⟨e, he, hef⟩ := ih hc
      exact ⟨e, List.mem_cons_of_mem _ he, hef⟩

lemma findRecovery_some {master_key : Bytes} {c : String} :
    ∀ l : List RecoveryEntry, (∀ e ∈ l, ∃ c', entryFor master_key c' e) →
      (∃ e ∈ l, entryFor master_key c e) →
      ∃ e, findRecovery c l = some (e, master_key) ∧ e ∈ l ∧
        entryFor master_key c e := by
  intro l
  induction l with
  | nil =>
    intro _ hex
    obtain ⟨e, he, _⟩ := hex
    cases he
  | cons e0 rest ih =>
    intro hall hex
    obtain ⟨c0, hef0⟩ := hall e0 (List.mem_cons_self _ _)
    cases hdec : decrypt_data e0.encrypted_key (derive_key c e0.salt) with
    | some q =>
      obtain ⟨hk, hq⟩ := entryFor_decrypt hef0 hdec
      have hc0 : c = c0 := (derive_key_inj hk).1
      subst hc0 hq
      exact ⟨e0, by rw [findRecovery, hdec], List.mem_cons_self _ _, hef0⟩
    | none =>
      obtain ⟨e, he, hef⟩ := hex
      have hrest : e ∈ rest := by
        rcases List.mem_cons.mp he with he | he
        · subst he
          rw [entryFor_decrypt_self hef] at hdec
          cases hdec
        · exact he
      obtain ⟨e', h1, h2, h3⟩ :=
        ih (fun x hx => hall x (List.mem_cons_of_mem _ hx)) ⟨e, hrest, hef⟩
      exact ⟨e', by rw [findRecovery, hdec]; exact h1, List.mem_cons_of_mem _ h2, h3⟩

lemma findRecovery_none {c : String} :
    ∀ l : List RecoveryEntry,
      (∀ e ∈ l, decrypt_data e.encrypted_key (derive_key c e.salt) = none) →
      findRecovery c l = none := by
  intro l
  induction l with
  | nil => intro _; rfl
  | cons e0 rest ih =>
    intro h
    rw [findRecovery, h e0 (List.mem_cons_self _ _)]
    exact ih (fun x hx => h x (List.mem_cons_of_mem _ hx))

lemma findRecovery_mem {c : String} :
    ∀ {l : List RecoveryEntry} {e : RecoveryEntry} {q : Bytes},
      findRecovery c l = some (e, q) →
      e ∈ l ∧ decrypt_data e.encrypted_key (derive_key c e.salt) = some q := by
  intro l
  induction l with
  | nil => intro e q h; cases h
  | cons e0 rest ih =>
    intro e q h
    rw [findRecovery] at h
    cases hdec : decrypt_data e0.encrypted_key (derive_key c e0.salt) with
    | some q0 =>
      rw [hdec] at h
      obtain ⟨he, hq⟩ := Prod.mk.injEq .. ▸ Option.some_inj.mp h
      subst he hq
      exact ⟨List.mem_cons_self _ _, hdec⟩
    | none =>
      rw [hdec] at h
      obtain ⟨h1, h2⟩ := ih h
      exact ⟨List.mem_cons_of_mem _ h1, h2⟩

lemma countP_matches {master_key : Bytes} {c : String} {cs : List String}
    {es : List RecoveryEntry} (h : List.Forall₂ (entryFor master_key) cs es) :
    es.countP (matchesB c) = cs.count c := by
  induction h with
  | nil => rfl
  | @cons c0 e0 cs0 es0 h1 _ ih =>
    rw [List.countP_cons, List.count_cons, ih]
    by_cases hc : c = c0
    · rw [if_pos ((matchesB_iff h1).mpr hc), if_pos (by simp [hc])]
    · rw [if_neg (by simp [matchesB_iff h1, hc])]
      simp [beq_iff_eq, Ne.symm hc]

lemma removeFirst_countP (p : RecoveryEntry → Bool) :
    ∀ (l : List RecoveryEntry) (x : RecoveryEntry), x ∈ l → p x = true →
      (removeFirst l x).countP p + 1 = l.countP p := by
  intro l
  induction l with
  | nil => intro x hx; cases hx
  | cons e0 rest ih =>
    intro x hx hp
    by_cases he : e0 = x
    · rw [removeFirst, if_pos he, List.countP_cons, he, hp]
      simp
    · have hx' : x ∈ rest := by
        rcases List.mem_cons.mp hx with h | h
        · exact absurd h.symm he
        · exact h
      rw [removeFirst, if_neg he, List.countP_cons, List.countP_cons,
        ← ih x hx' hp]
      omega

/-! ### Properties of account creation -/

lemma genCode_shape (g : Rng) :
    (genCode g).1.length = 8 ∧ ∀ ch ∈ (genCode g).1.data, ch.isDigit = true := by
  have hdig : ∀ m < 10, (Nat.digitChar m).isDigit = true := by decide
  constructor
  · simp [genCode, String.length]
  · intro ch hch
    simp only [genCode, List.mem_map] at hch
    obtain ⟨i, _, hi⟩ := hch
    rw [← hi]
    exact hdig _ (Nat.mod_lt _ (by omega))

lemma genRecovery_forall₂ (master_key : Bytes) :
    ∀ (n : Nat) (g : Rng),
      List.Forall₂ (entryFor master_key) (genRecovery master_key n g).1
        (genRecovery master_key n g).2.1 := by
  intro n
  induction n with
  | zero => intro g; exact List.Forall₂.nil
  | succ n ih =>
    intro g
    refine List.Forall₂.cons ?_ (ih _)
    exact ⟨(randBytes 16 (generate_salt (genCode g).2).2).1,
      randBytes_fst_length _ _, rfl⟩

lemma genRecovery_len₁ (master_key : Bytes) :
    ∀ (n : Nat) (g : Rng), (genRecovery master_key n g).1.length = n := by
  intro n
  induction n with
  | zero => intro g; rfl
  | succ n ih => intro g; simp [genRecovery, ih]

lemma genRecovery_len₂ (master_key : Bytes) :
    ∀ (n : Nat) (g : Rng), (genRecovery master_key n g).2.1.length = n := by
  intro n
  induction n with
  | zero => intro g; rfl
  | succ n ih => intro g; simp [genRecovery, ih]

lemma genRecovery_codes_shape (master_key : Bytes) :
    ∀ (n : Nat) (g : Rng), ∀ cd ∈ (genRecovery master_key n g).1,
      cd.length = 8 ∧ ∀ ch ∈ cd.data, ch.isDigit = true := by
  intro n
  induction n with
  | zero => intro g cd hcd; cases hcd
  | succ n ih =>
    intro g cd hcd
    rcases List.mem_cons.mp hcd with h | h
    · subst h; exact genCode_shape g
    · exact ih _ cd h

/-- Structure of a successful `create_account` call: the stored record
holds the master key sealed under the password-derived key, an empty
password map, and ten recovery entries escrowing the same master key,
matched one-to-one with the ten returned codes. -/
lemma create_account_spec (u pw : String) (st : MgrState) (g : Rng)
    (h : lookupStr st.users u = none) :
    ∃ (salt iv mk : Bytes) (codes : List String)
      (entries : List RecoveryEntry) (g' : Rng),
      salt.length = 16 ∧ iv.length = 16 ∧ mk.length = 32 ∧
      List.Forall₂ (entryFor mk) codes entries ∧
      codes.length = 10 ∧ entries.length = 10 ∧
      (∀ cd ∈ codes, cd.length = 8 ∧ ∀ ch ∈ cd.data, ch.isDigit = true) ∧
      create_account u pw st g =
        ⟨true, "Account created successfully", codes,
         ⟨setEntry st.users u ⟨salt, sealWith mk (derive_key pw salt) iv, [], entries⟩,
          setEntry st.users u ⟨salt, sealWith mk (derive_key pw salt) iv, [], entries⟩⟩,
         g'⟩ := by
  refine ⟨(generate_salt g).1,
    (randBytes 16 (randBytes 32 (generate_salt g).2).2).1,
    (randBytes 32 (generate_salt g).2).1,
    (genRecovery (randBytes 32 (generate_salt g).2).1 10
      (randBytes 16 (randBytes 32 (generate_salt g).2).2).2).1,
    (genRecovery (randBytes 32 (generate_salt g).2).1 10
      (randBytes 16 (randBytes 32 (generate_salt g).2).2).2).2.1,
    (genRecovery (randBytes 32 (generate_salt g).2).1 10
      (randBytes 16 (randBytes 32 (generate_salt g).2).2).2).2.2,
    randBytes_fst_length _ _, randBytes_fst_length _ _, randBytes_fst_length _ _,
    genRecovery_forall₂ _ 10 _, genRecovery_len₁ _ 10 _, genRecovery_len₂ _ 10 _,
    genRecovery_codes_shape _ 10 _, ?_⟩
  simp only [create_account, h]
  rfl

/-! ### Account-level helper lemmas -/

/-- `ud` stores `mk` sealed under the key derived from `pw` and its own
active salt (with some fresh 16-byte nonce). -/
def goodAccount (pw : String) (mk : Bytes) (ud : UserData) : Prop :=
  ∃ iv, iv.length = 16 ∧
    ud.encrypted_master_key = sealWith mk (derive_key pw ud.salt) iv

lemma login_good {u pw : String} {st : MgrState} {ud : UserData} {mk : Bytes}
    (h : lookupStr st.users u = some ud) (hg : goodAccount pw mk ud) :
    login u pw st = ⟨true, "Login successful", some mk, st⟩ := by
  obtain ⟨iv, hiv, hemk⟩ := hg
  simp only [login, h, hemk, decrypt_sealWith_same mk _ hiv]

lemma login_good_wrong {u pw pw0 : String} {st : MgrState} {ud : UserData}
    {mk : Bytes} (h : lookupStr st.users u = some ud)
    (hg : goodAccount pw0 mk ud) (hne : pw ≠ pw0) :
    login u pw st = ⟨false, "Invalid password", none, st⟩ := by
  obtain ⟨iv, hiv, hemk⟩ := hg
  have hkey : derive_key pw ud.salt ≠ derive_key pw0 ud.salt :=
    fun he => hne (derive_key_inj he).1
  simp only [login, h, hemk, decrypt_sealWith_ne mk _ hiv hkey]

lemma login_eq_of_ok {u pw : String} {st : MgrState}
    (h : (login u pw st).ok = true) :
    ∃ ud mk, lookupStr st.users u = some ud ∧
      decrypt_data ud.encrypted_master_key (derive_key pw ud.salt) = some mk ∧
      login u pw st = ⟨true, "Login successful", some mk, st⟩ := by
  cases hlk : lookupStr st.users u with
  | none => simp [login, hlk] at h
  | some ud =>
    cases hdec : decrypt_data ud.encrypted_master_key (derive_key pw ud.salt) with
    | none => simp [login, hlk, hdec] at h
    | some mk =>
      exact ⟨ud, mk, rfl, hdec, by simp only [login, hlk, hdec]⟩

lemma add_password_eq {u pw svc p : String} {st : MgrState} {g : Rng}
    {ud : UserData} {mk : Bytes} (h : lookupStr st.users u = some ud)
    (hlogin : login u pw st = ⟨true, "Login successful", some mk, st⟩) :
    add_password u pw svc p st g =
      ⟨true, "Password for " ++ svc ++ " added successfully",
       ⟨setEntry st.users u
          { ud with passwords :=
              setEntry ud.passwords svc (sealWith (strBytes p) mk (randBytes 16 g).1) },
        setEntry st.users u
          { ud with passwords :=
              setEntry ud.passwords svc (sealWith (strBytes p) mk (randBytes 16 g).1) }⟩,
       (randBytes 16 g).2⟩ := by
  simp only [add_password, h, hlogin]
  rfl

lemma get_password_eq {u pw svc p : String} {st : MgrState} {ud : UserData}
    {mk iv : Bytes} (h : lookupStr st.users u = some ud)
    (hlogin : login u pw st = ⟨true, "Login successful", some mk, st⟩)
    (hsvc : lookupStr ud.passwords svc = some (sealWith (strBytes p) mk iv))
    (hiv : iv.length = 16) :
    get_password u pw svc st = ⟨true, "Password for " ++ svc, some p⟩ := by
  simp only [get_password, h, hlogin, hsvc, decrypt_sealWith_same _ _ hiv,
    bytesStr_strBytes]

lemma recover_account_eq {u c npw : String} {st : MgrState} {g : Rng}
    {ud : UserData} {e : RecoveryEntry} {mk : Bytes}
    (h : lookupStr st.users u = some ud)
    (hfind : findRecovery c ud.recovery_data = some (e, mk)) :
    recover_account u c npw st g =
      ⟨true, "Account recovered successfully", some mk,
       ⟨setEntry st.users u
          { ud with
            salt := (randBytes 16 g).1
            encrypted_master_key :=
              sealWith mk (derive_key npw (randBytes 16 g).1)
                (randBytes 16 (randBytes 16 g).2).1
            recovery_data := removeFirst ud.recovery_data e },
        setEntry st.users u
          { ud with
            salt := (randBytes 16 g).1
            encrypted_master_key :=
              sealWith mk (derive_key npw (randBytes 16 g).1)
                (randBytes 16 (randBytes 16 g).2).1
            recovery_data := removeFirst ud.recovery_data e }⟩,
       (randBytes 16 (randBytes 16 g).2).2⟩ := by
  simp only [recover_account, h, hfind]
  rfl

/-! ### Concrete inputs used by the closed witness theorems -/

/-- An all-zero randomness tape (every code comes out `"00000000"`). -/
def zeroRng : Rng := ⟨fun _ => 0, 0⟩

/-- The empty store. -/
def emptyState : MgrState := ⟨[], []⟩

/-- A tape under which `create_account` draws ten pairwise distinct
recovery codes (`"00000000"`, `"11111111"`, ..., `"99999999"`). -/
def idxRng : Rng := ⟨fun n => if n < 64 then 0 else (n - 64) / 40, 0⟩

/-! ### Witness fixtures -/

/-- A recovery entry whose envelope is empty, so no code can open it. -/
def wEntry : RecoveryEntry := ⟨[], []⟩

/-- A record holding just that dead recovery entry. -/
def wUser : UserData := ⟨[], [], [], [wEntry]⟩

/-- A store holding the account `"alice"` with record `wUser`. -/
def wState : MgrState := ⟨[("alice", wUser)], []⟩

/-! ### The claims -/

/-- C1: for every 32-byte key `k` and every plaintext `p`, opening the
envelope produced by sealing `p` under `k` with that same key returns
exactly `p`: `decrypt_data (encrypt_data p k) k = some p`. -/
theorem C1_encrypt_decrypt_roundtrip (p k : Bytes) (g : Rng)
    (_hk : k.length = 32) :
    decrypt_data (encrypt_data p k g).1 k = some p :=
  decrypt_sealWith_same p k (randBytes_fst_length 16 g)

/-- Witness for C1 at a concrete key, plaintext and randomness tape. -/
theorem C1_witness :
    (List.replicate 32 0 : Bytes).length = 32 ∧
    decrypt_data (encrypt_data [1, 2, 3] (List.replicate 32 0) zeroRng).1
      (List.replicate 32 0) = some [1, 2, 3] :=
  ⟨by decide,
   C1_encrypt_decrypt_roundtrip [1, 2, 3] (List.replicate 32 0) zeroRng (by decide)⟩

/-- C10: the envelope produced by `encrypt_data` has length exactly
`p.length + 32`: 16-byte nonce, 16-byte tag, and a ciphertext of the same
length as the plaintext, with no padding — so the envelope length reveals
the exact plaintext length. -/
theorem C10_envelope_length (p k : Bytes) (g : Rng) :
    (encrypt_data p k g).1.length = p.length + 32 :=
  sealWith_length p k (randBytes_fst_length 16 g)

/-- C9: for every key and every input shorter than 32 bytes,
`decrypt_data` fails with the same observable outcome (`none`) as a wrong
key or a tampered envelope — in the source, every such failure is an
exception swallowed by the caller's bare `except:` and mapped to the same
authentication failure. -/
theorem C9_short_input_fails (ed k : Bytes) (h : ed.length < 32) :
    decrypt_data ed k = none := by
  have ht : ((ed.drop 16).take 16).length < 16 := by
    rw [List.length_take, List.length_drop]
    omega
  simp only [decrypt_data]
  rw [if_pos (Or.inr ht)]

/-- Witness for C9 at a concrete 3-byte input. -/
theorem C9_witness :
    ([1, 2, 3] : Bytes).length < 32 ∧ decrypt_data [1, 2, 3] [] = none :=
  ⟨by decide, C9_short_input_fails [1, 2, 3] [] (by decide)⟩

/-- C7: `create_account` fails with `DuplicateUser` ("Username already
exists") exactly when the username is already present in the store, and in
that case it returns with the state — both the in-memory table and the
persisted copy, hence the existing record — and the randomness entirely
unchanged, with no recovery codes. -/
theorem C7_duplicate_user (u pw : String) (st : MgrState) (g : Rng) :
    ((create_account u pw st g).ok = false ↔
      (lookupStr st.users u).isSome = true) ∧
    ((lookupStr st.users u).isSome = true →
      create_account u pw st g = ⟨false, "Username already exists", [], st, g⟩) := by
  cases h : lookupStr st.users u with
  | none => simp [create_account, h]
  | some ud => simp [create_account, h]

/-- C6: `login` never mutates any state — for every username and password
the state it returns is the one it was given — and on a wrong password for
an existing (created) account it fails with `AuthenticationFailure`
("Invalid password"). -/
theorem C6_login_readonly_wrong_password :
    (∀ (u pw : String) (st : MgrState), (login u pw st).st = st) ∧
    (∀ (u pw0 pw : String) (st0 : MgrState) (g0 : Rng),
      lookupStr st0.users u = none → pw ≠ pw0 →
      login u pw (create_account u pw0 st0 g0).st =
        ⟨false, "Invalid password", none, (create_account u pw0 st0 g0).st⟩) := by
  constructor
  · intro u pw st
    cases h : lookupStr st.users u with
    | none => simp [login, h]
    | some ud =>
      cases hd : decrypt_data ud.encrypted_master_key (derive_key pw ud.salt) with
      | none => simp [login, h, hd]
      | some mk => simp [login, h, hd]
  · intro u pw0 pw st0 g0 h0 hne
    obtain ⟨salt, iv, mk, codes, entries, g', hsl, hivl, hmkl, hf2, hcl, hel,
      hshape, heq⟩ := create_account_spec u pw0 st0 g0 h0
    rw [heq]
    exact login_good_wrong (lookupStr_setEntry_self _ _ _) ⟨iv, hivl, rfl⟩ hne

/-- C4: for an existing account and a recovery code that decrypts none of
its recovery entries, `recover_account` fails with `InvalidRecoveryCode`
("Invalid recovery code") after the scan exhausts all entries, and the
account record, the store (in-memory and persisted) and the randomness are
left entirely unchanged. -/
theorem C4_invalid_code_no_mutation (u c npw : String) (st : MgrState)
    (g : Rng) (ud : UserData) (h : lookupStr st.users u = some ud)
    (hfail : ∀ e ∈ ud.recovery_data,
      decrypt_data e.encrypted_key (derive_key c e.salt) = none) :
    recover_account u c npw st g = ⟨false, "Invalid recovery code", none, st, g⟩ := by
  simp only [recover_account, h, findRecovery_none _ hfail]

/-- Witness for C4 on a concrete store whose single recovery entry opens
under no code. -/
theorem C4_witness :
    lookupStr wState.users "alice" = some wUser ∧
    recover_account "alice" "123" "npw" wState zeroRng =
      ⟨false, "Invalid recovery code", none, wState, zeroRng⟩ :=
  ⟨by decide,
   C4_invalid_code_no_mutation "alice" "123" "npw" wState zeroRng wUser
     (by decide) (by decide)⟩

/-- C5: for an existing account with correct master password, storing a
service password and then retrieving it under the same credentials
succeeds and returns exactly the stored password. -/
theorem C5_add_get_roundtrip (u pw svc p : String) (st : MgrState) (g : Rng)
    (h : (login u pw st).ok = true) :
    (add_password u pw svc p st g).ok = true ∧
    get_password u pw svc (add_password u pw svc p st g).st =
      ⟨true, "Password for " ++ svc, some p⟩ := by
  obtain ⟨ud, mk, hlk, hdec, hlogin⟩ := login_eq_of_ok h
  rw [add_password_eq hlk hlogin]
  refine ⟨rfl, ?_⟩
  set ep : Bytes := sealWith (strBytes p) mk (randBytes 16 g).1 with hep
  set ud2 : UserData := { ud with passwords := setEntry ud.passwords svc ep }
    with hud2
  have hlk2 : lookupStr (setEntry st.users u ud2) u = some ud2 :=
    lookupStr_setEntry_self _ _ _
  have hdec2 : decrypt_data ud2.encrypted_master_key
      (derive_key pw ud2.salt) = some mk := hdec
  have hlogin2 : login u pw ⟨setEntry st.users u ud2, setEntry st.users u ud2⟩ =
      ⟨true, "Login successful", some mk,
       ⟨setEntry st.users u ud2, setEntry st.users u ud2⟩⟩ := by
    simp only [login, hlk2, hdec2]
  exact get_password_eq hlk2 hlogin2 (lookupStr_setEntry_self _ _ _)
    (randBytes_fst_length 16 g)

/-- Witness for C5: create `"alice"`, store a password for `"github"`, and
read it back. -/
theorem C5_witness :
    (login "alice" "pw1" (create_account "alice" "pw1" emptyState zeroRng).st).ok
      = true ∧
    (add_password "alice" "pw1" "github" "s3cr3t"
        (create_account "alice" "pw1" emptyState zeroRng).st zeroRng).ok = true ∧
    get_password "alice" "pw1" "github"
        (add_password "alice" "pw1" "github" "s3cr3t"
          (create_account "alice" "pw1" emptyState zeroRng).st zeroRng).st =
      ⟨true, "Password for " ++ "github", some "s3cr3t"⟩ := by
  have h : (login "alice" "pw1"
      (create_account "alice" "pw1" emptyState zeroRng).st).ok = true := by decide
  exact ⟨h, C5_add_get_roundtrip "alice" "pw1" "github" "s3cr3t" _ zeroRng h⟩

/-- C2: a successful `recover_account` leaves the MasterKey value
unchanged — the key it returns is the very key `login` returned before the
recovery (only the active salt and master-key envelope are replaced) — so
a service password stored before the recovery remains retrievable via
`get_password` under the new master password afterwards. -/
theorem C2_recovery_preserves_vault (u pw0 newpw svc spw c : String)
    (st0 : MgrState) (g0 g1 g2 : Rng)
    (h0 : lookupStr st0.users u = none)
    (hc : c ∈ (create_account u pw0 st0 g0).codes) :
    (recover_account u c newpw
        (add_password u pw0 svc spw (create_account u pw0 st0 g0).st g1).st
        g2).ok = true ∧
    (recover_account u c newpw
        (add_password u pw0 svc spw (create_account u pw0 st0 g0).st g1).st
        g2).key = (login u pw0 (create_account u pw0 st0 g0).st).key ∧
    get_password u newpw svc
        (recover_account u c newpw
          (add_password u pw0 svc spw (create_account u pw0 st0 g0).st g1).st
          g2).st = ⟨true, "Password for " ++ svc, some spw⟩ := by
  obtain ⟨salt, iv, mk, codes, entries, g', hsl, hivl, hmkl, hf2, hcl, hel,
    hshape, heq⟩ := create_account_spec u pw0 st0 g0 h0
  have hcodes : (create_account u pw0 st0 g0).codes = codes := by rw [heq]
  rw [hcodes] at hc
  have hst1 : (create_account u pw0 st0 g0).st =
      ⟨setEntry st0.users u ⟨salt, sealWith mk (derive_key pw0 salt) iv, [], entries⟩,
       setEntry st0.users u ⟨salt, sealWith mk (derive_key pw0 salt) iv, [], entries⟩⟩ := by
    rw [heq]
  rw [hst1]
  set ud1 : UserData :=
    ⟨salt, sealWith mk (derive_key pw0 salt) iv, [], entries⟩ with hud1
  set st1 : MgrState :=
    ⟨setEntry st0.users u ud1, setEntry st0.users u ud1⟩ with hst1def
  have hlk1 : lookupStr st1.users u = some ud1 := lookupStr_setEntry_self _ _ _
  have hgood1 : goodAccount pw0 mk ud1 := ⟨iv, hivl, rfl⟩
  have hlogin1 : login u pw0 st1 = ⟨true, "Login successful", some mk, st1⟩ :=
    login_good hlk1 hgood1
  set ep1 : Bytes := sealWith (strBytes spw) mk (randBytes 16 g1).1 with hep1
  set ud2 : UserData :=
    { ud1 with passwords := setEntry ud1.passwords svc ep1 } with hud2
  have hadd : add_password u pw0 svc spw st1 g1 =
      ⟨true, "Password for " ++ svc ++ " added successfully",
       ⟨setEntry st1.users u ud2, setEntry st1.users u ud2⟩,
       (randBytes 16 g1).2⟩ := add_password_eq hlk1 hlogin1
  have hst2 : (add_password u pw0 svc spw st1 g1).st =
      ⟨setEntry st1.users u ud2, setEntry st1.users u ud2⟩ := by rw [hadd]
  rw [hst2]
  set st2 : MgrState :=
    ⟨setEntry st1.users u ud2, setEntry st1.users u ud2⟩ with hst2def
  have hlk2 : lookupStr st2.users u = some ud2 := lookupStr_setEntry_self _ _ _
  obtain ⟨e, hfind, hmem, hefe⟩ :=
    findRecovery_some entries (forall₂_escrow hf2) (forall₂_mem_code hf2 hc)
  have hfind2 : findRecovery c ud2.recovery_data = some (e, mk) := hfind
  set ud3 : UserData :=
    { ud2 with
      salt := (randBytes 16 g2).1
      encrypted_master_key :=
        sealWith mk (derive_key newpw (randBytes 16 g2).1)
          (randBytes 16 (randBytes 16 g2).2).1
      recovery_data := removeFirst ud2.recovery_data e } with hud3
  have hrec : recover_account u c newpw st2 g2 =
      ⟨true, "Account recovered successfully", some mk,
       ⟨setEntry st2.users u ud3, setEntry st2.users u ud3⟩,
       (randBytes 16 (randBytes 16 g2).2).2⟩ := recover_account_eq hlk2 hfind2
  rw [hrec]
  refine ⟨rfl, ?_, ?_⟩
  · rw [hlogin1]
  · have hlk3 : lookupStr (setEntry st2.users u ud3) u = some ud3 :=
      lookupStr_setEntry_self _ _ _
    have hgood3 : goodAccount newpw mk ud3 :=
      ⟨(randBytes 16 (randBytes 16 g2).2).1, randBytes_fst_length _ _, rfl⟩
    have hlogin3 : login u newpw ⟨setEntry st2.users u ud3, setEntry st2.users u ud3⟩ =
        ⟨true, "Login successful", some mk,
         ⟨setEntry st2.users u ud3, setEntry st2.users u ud3⟩⟩ :=
      login_good hlk3 hgood3
    have hsvc : lookupStr ud3.passwords svc =
        some (sealWith (strBytes spw) mk (randBytes 16 g1).1) :=
      lookupStr_setEntry_self _ _ _
    exact get_password_eq hlk3 hlogin3 hsvc (randBytes_fst_length 16 g1)

/-- Witness for C2: create `"alice"`, store a password for `"github"`,
recover with the code `"00000000"` (the all-zero tape draws it ten times)
and read the password back under the new master password. -/
theorem C2_witness :
    (recover_account "alice" "00000000" "npw"
        (add_password "alice" "pw1" "github" "s3cr3t"
          (create_account "alice" "pw1" emptyState zeroRng).st zeroRng).st
        zeroRng).ok = true ∧
    (recover_account "alice" "00000000" "npw"
        (add_password "alice" "pw1" "github" "s3cr3t"
          (create_account "alice" "pw1" emptyState zeroRng).st zeroRng).st
        zeroRng).key =
      (login "alice" "pw1" (create_account "alice" "pw1" emptyState zeroRng).st).key ∧
    get_password "alice" "npw" "github"
        (recover_account "alice" "00000000" "npw"
          (add_password "alice" "pw1" "github" "s3cr3t"
            (create_account "alice" "pw1" emptyState zeroRng).st zeroRng).st
          zeroRng).st = ⟨true, "Password for " ++ "github", some "s3cr3t"⟩ :=
  C2_recovery_preserves_vault "alice" "pw1" "npw" "github" "s3cr3t" "00000000"
    emptyState zeroRng zeroRng zeroRng rfl (by decide)

/-- Counterexample to C3 as stated: with the all-zero tape every one of
the ten recovery codes is `"00000000"`, so after a successful recovery the
same code still opens one of the nine remaining entries and a second
`recover_account` succeeds instead of failing with `InvalidRecoveryCode`;
and when the new master password equals the old one, login with the old
password still succeeds after recovery. -/
theorem C3_counterexample :
    ((recover_account "alice" "00000000" "newpw"
        (create_account "alice" "pw1" emptyState zeroRng).st zeroRng).ok = true ∧
     (recover_account "alice" "00000000" "newpw2"
        (recover_account "alice" "00000000" "newpw"
          (create_account "alice" "pw1" emptyState zeroRng).st zeroRng).st
        zeroRng).ok = true) ∧
    ((recover_account "alice" "00000000" "pw1"
        (create_account "alice" "pw1" emptyState zeroRng).st zeroRng).ok = true ∧
     (login "alice" "pw1"
        (recover_account "alice" "00000000" "pw1"
          (create_account "alice" "pw1" emptyState zeroRng).st zeroRng).st).ok
        = true) := by
  decide

/-- C3 (amended): provided the ten recovery codes drawn at creation are
pairwise distinct and the new master password differs from the old one,
recovery is one-shot: after a successful `recover_account` with code `c`,
login with the new password succeeds, login with the old master password
fails with `AuthenticationFailure`, and a second `recover_account` with
the same code `c` fails with `InvalidRecoveryCode`, the matched entry
having been removed. -/
theorem C3_one_shot_amended (u pw0 newpw newpw2 c : String)
    (st0 : MgrState) (g0 g1 g2 : Rng)
    (h0 : lookupStr st0.users u = none)
    (hpw : pw0 ≠ newpw)
    (hc : c ∈ (create_account u pw0 st0 g0).codes)
    (hnd : (create_account u pw0 st0 g0).codes.Nodup) :
    (recover_account u c newpw (create_account u pw0 st0 g0).st g1).ok = true ∧
    (login u newpw
        (recover_account u c newpw (create_account u pw0 st0 g0).st g1).st).ok
      = true ∧
    login u pw0 (recover_account u c newpw (create_account u pw0 st0 g0).st g1).st =
      ⟨false, "Invalid password", none,
       (recover_account u c newpw (create_account u pw0 st0 g0).st g1).st⟩ ∧
    recover_account u c newpw2
        (recover_account u c newpw (create_account u pw0 st0 g0).st g1).st g2 =
      ⟨false, "Invalid recovery code", none,
       (recover_account u c newpw (create_account u pw0 st0 g0).st g1).st, g2⟩ := by
  obtain ⟨salt, iv, mk, codes, entries, g', hsl, hivl, hmkl, hf2, hcl, hel,
    hshape, heq⟩ := create_account_spec u pw0 st0 g0 h0
  have hcodes : (create_account u pw0 st0 g0).codes = codes := by rw [heq]
  rw [hcodes] at hc hnd
  have hst1 : (create_account u pw0 st0 g0).st =
      ⟨setEntry st0.users u ⟨salt, sealWith mk (derive_key pw0 salt) iv, [], entries⟩,
       setEntry st0.users u ⟨salt, sealWith mk (derive_key pw0 salt) iv, [], entries⟩⟩ := by
    rw [heq]
  rw [hst1]
  set ud1 : UserData :=
    ⟨salt, sealWith mk (derive_key pw0 salt) iv, [], entries⟩ with hud1
  set st1 : MgrState :=
    ⟨setEntry st0.users u ud1, setEntry st0.users u ud1⟩ with hst1def
  have hlk1 : lookupStr st1.users u = some ud1 := lookupStr_setEntry_self _ _ _
  obtain ⟨e, hfind, hmem, hefe⟩ :=
    findRecovery_some entries (forall₂_escrow hf2) (forall₂_mem_code hf2 hc)
  have hfind1 : findRecovery c ud1.recovery_data = some (e, mk) := hfind
  set ud3 : UserData :=
    { ud1 with
      salt := (randBytes 16 g1).1
      encrypted_master_key :=
        sealWith mk (derive_key newpw (randBytes 16 g1).1)
          (randBytes 16 (randBytes 16 g1).2).1
      recovery_data := removeFirst ud1.recovery_data e } with hud3
  have hrec : recover_account u c newpw st1 g1 =
      ⟨true, "Account recovered successfully", some mk,
       ⟨setEntry st1.users u ud3, setEntry st1.users u ud3⟩,
       (randBytes 16 (randBytes 16 g1).2).2⟩ := recover_account_eq hlk1 hfind1
  rw [hrec]
  have hlk3 : lookupStr (setEntry st1.users u ud3) u = some ud3 :=
    lookupStr_setEntry_self _ _ _
  have hgood3 : goodAccount newpw mk ud3 :=
    ⟨(randBytes 16 (randBytes 16 g1).2).1, randBytes_fst_length _ _, rfl⟩
  refine ⟨rfl, ?_, ?_, ?_⟩
  · rw [login_good hlk3 hgood3]
  · exact login_good_wrong hlk3 hgood3 hpw
  · -- the matched entry was the only one `c` opens; after removal none is left
    have hcnt : entries.countP (matchesB c) = codes.count c := countP_matches hf2
    have hone : codes.count c = 1 := List.count_eq_one_of_mem hnd hc
    have hme : matchesB c e = true := by
      rw [matchesB, (findRecovery_mem hfind).2]
      rfl
    have hrem : (removeFirst entries e).countP (matchesB c) + 1 =
        entries.countP (matchesB c) := removeFirst_countP _ entries e hmem hme
    have hzero : (removeFirst entries e).countP (matchesB c) = 0 := by omega
    have hnone : findRecovery c (removeFirst entries e) = none := by
      refine findRecovery_none _ (fun e' he' => ?_)
      have := (List.countP_eq_zero.mp hzero) e' he'
      rw [matchesB] at this
      exact Option.not_isSome_iff_eq_none.mp (by simpa using this)
    have hnone3 : findRecovery c ud3.recovery_data = none := hnone
    simp only [recover_account, hlk3, hnone3]

/-- Witness for the amended C3: under `idxRng` the ten codes are
`"00000000"` ... `"99999999"`, pairwise distinct. -/
theorem C3_witness :
    (recover_account "alice" "00000000" "npw"
        (create_account "alice" "pw1" emptyState idxRng).st zeroRng).ok = true ∧
    (login "alice" "npw"
        (recover_account "alice" "00000000" "npw"
          (create_account "alice" "pw1" emptyState idxRng).st zeroRng).st).ok
      = true ∧
    login "alice" "pw1"
        (recover_account "alice" "00000000" "npw"
          (create_account "alice" "pw1" emptyState idxRng).st zeroRng).st =
      ⟨false, "Invalid password", none,
       (recover_account "alice" "00000000" "npw"
          (create_account "alice" "pw1" emptyState idxRng).st zeroRng).st⟩ ∧
    recover_account "alice" "00000000" "npw2"
        (recover_account "alice" "00000000" "npw"
          (create_account "alice" "pw1" emptyState idxRng).st zeroRng).st zeroRng =
      ⟨false, "Invalid recovery code", none,
       (recover_account "alice" "00000000" "npw"
          (create_account "alice" "pw1" emptyState idxRng).st zeroRng).st, zeroRng⟩ :=
  C3_one_shot_amended "alice" "pw1" "npw" "npw2" "00000000" emptyState idxRng
    zeroRng zeroRng rfl (by decide) (by decide) (by decide)

/-- Counterexample to C8 as stated: the code generator enforces no
distinctness, so with the all-zero tape `create_account` succeeds yet
returns ten equal codes — the returned list is not pairwise distinct. -/
theorem C8_counterexample :
    (create_account "alice" "pw1" emptyState zeroRng).ok = true ∧
    (create_account "alice" "pw1" emptyState zeroRng).codes.length = 10 ∧
    ¬ (create_account "alice" "pw1" emptyState zeroRng).codes.Nodup := by
  decide

/-- C8 (amended): every successful `create_account` returns exactly 10
recovery codes, each an 8-character numeric (digit) string — pairwise
distinctness is not guaranteed, each code only being independently
random — and stores exactly 10 recovery entries, matched one-to-one with
the returned codes, each escrowing the same master key. -/
theorem C8_create_account_codes (u pw : String) (st : MgrState) (g : Rng)
    (h : lookupStr st.users u = none) :
    (create_account u pw st g).ok = true ∧
    (create_account u pw st g).codes.length = 10 ∧
    (∀ cd ∈ (create_account u pw st g).codes,
      cd.length = 8 ∧ ∀ ch ∈ cd.data, ch.isDigit = true) ∧
    ∃ ud mk, lookupStr (create_account u pw st g).st.users u = some ud ∧
      ud.recovery_data.length = 10 ∧
      List.Forall₂ (entryFor mk) (create_account u pw st g).codes
        ud.recovery_data := by
  obtain ⟨salt, iv, mk, codes, entries, g', hsl, hivl, hmkl, hf2, hcl, hel,
    hshape, heq⟩ := create_account_spec u pw st g h
  rw [heq]
  exact ⟨rfl, hcl, hshape,
    ⟨salt, sealWith mk (derive_key pw salt) iv, [], entries⟩, mk,
    lookupStr_setEntry_self _ _ _, hel, hf2⟩

/-- Witness for the amended C8 at a concrete fresh store. -/
theorem C8_witness :
    (create_account "alice" "pw1" emptyState zeroRng).ok = true ∧
    (create_account "alice" "pw1" emptyState zeroRng).codes.length = 10 ∧
    (∀ cd ∈ (create_account "alice" "pw1" emptyState zeroRng).codes,
      cd.length = 8 ∧ ∀ ch ∈ cd.data, ch.isDigit = true) ∧
    ∃ ud mk,
      lookupStr (create_account "alice" "pw1" emptyState zeroRng).st.users "alice"
        = some ud ∧
      ud.recovery_data.length = 10 ∧
      List.Forall₂ (entryFor mk) (create_account "alice" "pw1" emptyState zeroRng).codes
        ud.recovery_data :=
  C8_create_account_codes "alice" "pw1" emptyState zeroRng rfl

end Passtest
